import Mathlib

/-!
Verification development for the capreolus rerank/evaluate pipeline and the
CodeSearchNet benchmark ingestion, shallowly embedded from the Python source
(`capreolus/task/rerank.py`, `capreolus/benchmark/codesearchnet.py`,
`capreolus/extractor/bagofwords.py`).

Conventions of the embedding:
* Python `dict`s (whose insertion order is significant in this code base) are
  modelled as association lists `List (key × value)` in insertion order.
* Scores are floats in Python but are only ever copied, never combined, by the
  code under study; they are modelled by an opaque integer carrier `Score`.
* Python exceptions are modelled by an error type `PyErr`; fallible code
  returns `Except PyErr _`.
* External collaborators (the metric evaluator `benchmark.evaluate`, the
  interpolation routine, the tokenizer, `format_metrics_string`) are taken as
  function parameters.
-/

namespace Capreolus

/-- Query ids and document ids are strings. -/
abbrev Qid := String

abbrev Docid := String

/-- Opaque carrier for the floating-point scores the pipeline copies around. -/
abbrev Score := Int

/-- A run: ordered mapping query-id → (ordered mapping docid → score),
modelled as an insertion-ordered association list. -/
abbrev Run := List (Qid × List (Docid × Score))

/-- Qrels: query-id → docid → integer relevance grade. -/
abbrev Qrels := List (Qid × List (Docid × Int))

/-- First-key lookup in an association list (Python `dict.get`). -/
def alookup {α : Type} (m : List (String × α)) (k : String) : Option α :=
  match m with
  | [] => none
  | (k', v) :: rest => if k' = k then some v else alookup rest k

/-- Embeds the dev/test sub-run construction of `RerankTask.rerank_run`
(rerank.py lines 73-80 and 109-116): iterate over the (ordered) first-stage
run; for each query in the fold's predict set, copy its documents in order,
stopping once `threshold` documents have been copied.  The `defaultdict(dict)`
only acquires a key for a query when at least one document is written for it,
so queries whose truncated document list is empty do not appear. -/
def truncRun (run : Run) (qidSet : List Qid) (threshold : Nat) : Run :=
  run.filterMap (fun e =>
    if e.1 ∈ qidSet then
      if (e.2.take threshold).isEmpty then none
      else some (e.1, e.2.take threshold)
    else none)

theorem truncRun_nil (qidSet : List Qid) (k : Nat) : truncRun [] qidSet k = [] := rfl

theorem truncRun_eq_filter_map (run : Run) (Q : List Qid) (k : Nat)
    (hk : 1 ≤ k) (hne : ∀ e ∈ run, e.2 ≠ []) :
    truncRun run Q k = (run.filter (fun e => e.1 ∈ Q)).map (fun e => (e.1, e.2.take k)) := by
  induction run with
  | nil => rfl
  | cons e rest ih =>
    have hefst : e.2 ≠ [] := hne e (List.mem_cons_self e rest)
    have hcond : ¬ (k = 0 ∨ e.2 = []) := by
      push_neg
      exact ⟨by omega, hefst⟩
    have ih' := ih (fun x hx => hne x (List.mem_cons_of_mem e hx))
    by_cases hq : e.1 ∈ Q
    · simp [truncRun, List.filterMap_cons, hq, List.isEmpty_iff, List.take_eq_nil_iff,
        hcond] at ih' ⊢
      exact ih'
    · simp [truncRun, List.filterMap_cons, hq] at ih' ⊢
      exact ih'

/-- C3: for every first-stage run (whose queries, coming from a parsed trec
run file, each carry at least one document) and a positive per-query cap, the
dev sub-run built by `rerank_run` contains exactly the run's queries that lie
in the fold's dev predict set, each mapped to the first `threshold` documents
of that query in the run's existing order with unchanged scores; the test
sub-run is the same construction with the test predict set and
`testthreshold` (both loops are embedded by `truncRun`, instantiated at
`(devQids, threshold)` and `(testQids, testthreshold)` respectively). -/
theorem rerank_subrun_correct (run : Run) (Q : List Qid) (k : Nat)
    (hk : 1 ≤ k) (hne : ∀ e ∈ run, e.2 ≠ []) :
    truncRun run Q k = (run.filter (fun e => e.1 ∈ Q)).map (fun e => (e.1, e.2.take k))
    ∧ ∀ e ∈ truncRun run Q k, e.2.length ≤ k := by
  refine ⟨truncRun_eq_filter_map run Q k hk hne, ?_⟩
  intro e he
  rw [truncRun_eq_filter_map run Q k hk hne] at he
  rcases List.mem_map.mp he with ⟨x, _, rfl⟩
  simp [List.length_take]

theorem rerank_subrun_correct_witness :
    1 ≤ 1
    ∧ (∀ e ∈ ([("q1", [("d1", (5 : Score)), ("d2", (3 : Score))]),
               ("q2", [("d3", (1 : Score))])] : Run), e.2 ≠ [])
    ∧ (truncRun [("q1", [("d1", (5 : Score)), ("d2", (3 : Score))]),
                 ("q2", [("d3", (1 : Score))])] ["q1"] 1 =
        (([("q1", [("d1", (5 : Score)), ("d2", (3 : Score))]),
           ("q2", [("d3", (1 : Score))])] : Run).filter
            (fun e => e.1 ∈ (["q1"] : List Qid))).map (fun e => (e.1, e.2.take 1))
      ∧ ∀ e ∈ truncRun [("q1", [("d1", (5 : Score)), ("d2", (3 : Score))]),
                        ("q2", [("d3", (1 : Score))])] ["q1"] 1, e.2.length ≤ 1) :=
  ⟨le_refl 1, by decide, rerank_subrun_correct _ _ _ (le_refl 1) (by decide)⟩

/-- C4: the filter-to-Q-and-cap-at-k sub-run construction of `rerank_run` is
idempotent: applying `truncRun` to its own output, with the same query-id set
and the same cap, returns the output unchanged. -/
theorem truncate_idempotent (run : Run) (Q : List Qid) (k : Nat) :
    truncRun (truncRun run Q k) Q k = truncRun run Q k := by
  induction run with
  | nil => rfl
  | cons e rest ih =>
    by_cases hq : e.1 ∈ Q
    · by_cases he : e.2.take k = []
      · have hor : k = 0 ∨ e.2 = [] := List.take_eq_nil_iff.mp he
        simp [truncRun, List.filterMap_cons, hq, List.isEmpty_iff, hor] at ih ⊢
        exact ih
      · have hk : k ≠ 0 := by
          intro h
          exact he (by simp [h])
        have hor : ¬ (k = 0 ∨ e.2 = []) := fun h => he (List.take_eq_nil_iff.mpr h)
        have hne2 : e.2 ≠ [] := fun h => he (by simp [h])
        simp [truncRun, List.filterMap_cons, hq, he, hor, List.take_take,
          List.isEmpty_iff, hk, hne2] at ih ⊢
        exact ih
    · simp [truncRun, List.filterMap_cons, hq] at ih ⊢
      exact ih

/-! ## The `RerankTask.evaluate` pipeline (rerank.py lines 181-237) -/

/-- Per-fold reranker predictions reloaded from disk by
`find_crossvalidated_results`: a dev run and a test run. -/
structure Preds where
  dev : Run
  test : Run

/-- One fold of the benchmark: `train_qids` plus the `predict` dev/test sets. -/
structure FoldSpec where
  train_qids : List Qid
  dev : List Qid
  test : List Qid

/-- The benchmark collaborator: its folds (an ordered mapping fold-name →
fold) and its qrels. -/
structure Benchmark where
  folds : List (String × FoldSpec)
  qrels : Qrels

/-- Python exceptions raised (or mentioned by the spec) around this code. -/
inductive PyErr where
  /-- Python's builtin `ValueError`. -/
  | valueError (msg : String)
  /-- Python's builtin `KeyError` (raised by `dict[k]` on a missing key). -/
  | keyError
  /-- Python's builtin `RuntimeError`. -/
  | runtimeError (msg : String)
  /-- Numpy's out-of-bounds index error. -/
  | indexError
  /-- `MissingPredictionsError` is the spec's error-taxonomy name for the
  missing-current-fold failure; the source never raises an exception of this
  class (the constructor exists so the spec's statement can be formalised). -/
  | missingPredictionsError (msg : String)
deriving DecidableEq

/-- rerank.py lines 195 and 200: `{qid: self.benchmark.qrels.get(qid, {}) for
qid in self.benchmark.folds[fold]["predict"][split]}` — one qrels entry per
predict-set query, defaulting to the empty mapping. -/
def predictQrels (qrels : Qrels) (predictQids : List Qid) : Qrels :=
  predictQids.map (fun qid => (qid, (alookup qrels qid).getD []))

/-- Python `d[k] = v` on a `dict`: replace the value in place if the key is
present (keeping its position), else append a new entry. -/
def dictSet {α : Type} : List (String × α) → String → α → List (String × α)
  | [], k, v => [(k, v)]
  | (k', v') :: rest, k, v =>
      if k' = k then (k', v) :: rest else (k', v') :: dictSet rest k v

/-- Python `all_preds.setdefault(qid, {})` (rerank.py line 222): create an
empty entry for `q` unless one exists. -/
def setdefaultQ (r : Run) (q : Qid) : Run :=
  if (alookup r q).isSome then r else r ++ [(q, [])]

/-- Python `all_preds[qid][docid] = score` (rerank.py line 224): update the
inner mapping of the (unique) entry for `q`. -/
def runSetDoc : Run → Qid → Docid → Score → Run
  | [], _, _, _ => []
  | e :: rest, q, d, s =>
      if e.1 = q then (e.1, dictSet e.2 d s) :: rest else e :: runSetDoc rest q d s

/-- rerank.py lines 221-224: fold one fold's test predictions into the
accumulated `all_preds`. -/
def mergePreds (acc : Run) (testRun : Run) : Run :=
  testRun.foldl
    (fun acc e => e.2.foldl (fun a ds => runSetDoc a e.1 ds.1 ds.2) (setdefaultQ acc e.1))
    acc

/-- rerank.py lines 219-224: `all_preds`, the merge of every fold's test
predictions into a single run. -/
def mergeAllPreds (testRuns : List Run) : Run :=
  testRuns.foldl mergePreds []

/-- The dictionary returned by `RerankTask.evaluate` (metric values of type
`M`; `interpolated` is `None`/`interpolated_cv_metrics` in the partial-return
branch and `interpolated_results` in the full branch). -/
structure EvalOutput (M : Type) where
  fold_test_metrics : M
  fold_dev_metrics : M
  cv_metrics : Option M
  interpolated : Option M

/-- The log line of rerank.py line 198. -/
def devMsg (fold s : String) : String :=
  s!"rerank: fold={fold} dev metrics: {s}"

/-- The log line of rerank.py line 203. -/
def testMsg (fold s : String) : String :=
  s!"rerank: fold={fold} test metrics: {s}"

/-- The log line of rerank.py lines 206-210, reporting reduced coverage. -/
def skipMsg (n total : Nat) : String :=
  s!"rerank: skipping cross-validated metrics because results exist for only {n}/{total} folds"

/-- The log line of rerank.py line 218. -/
def cvHeaderMsg (optimize : String) : String :=
  s!"rerank: average cross-validated metrics when choosing iteration based on \x7b{optimize}\x7d:"

/-- `RerankTask.evaluate` (rerank.py lines 181-237).  External collaborators
are parameters: `bmEval` is `self.benchmark.evaluate` (for the pooled call on
line 226 the qrels argument defaults to the benchmark's own qrels),
`interpolatedEval` the value of `evaluator.interpolated_eval` on line 227,
`fmt` is `format_metrics_string`.  `rerankerRuns` is the association list
reloaded from disk by `find_crossvalidated_results` (its keys are a subset of
the benchmark's fold names).  Returns the result dictionary together with the
list of log messages, or the exception raised. -/
def RerankTask.evaluate {M : Type}
    (bmEval : Run → Qrels → M) (interpolatedEval : M) (fmt : M → String)
    (B : Benchmark) (cfgFold : String) (cfgOptimize : String)
    (rerankerRuns : List (String × Preds)) :
    Except PyErr (EvalOutput M × List String) :=
  match alookup rerankerRuns cfgFold with
  | none =>
      -- lines 191-193: logger.error then `raise ValueError(...)`
      .error (.valueError "could not find predictions; run the train command first")
  | some preds =>
      match alookup B.folds cfgFold with
      | none => .error .keyError  -- `self.benchmark.folds[fold]` on line 195
      | some fs =>
          let dev_qrels := predictQrels B.qrels fs.dev
          let fold_dev_metrics := bmEval preds.dev dev_qrels
          let devLine := devMsg cfgFold (fmt fold_dev_metrics)
          let test_qrels := predictQrels B.qrels fs.test
          let fold_test_metrics := bmEval preds.test test_qrels
          let testLine := testMsg cfgFold (fmt fold_test_metrics)
          if rerankerRuns.length ≠ B.folds.length then
            .ok ({ fold_test_metrics := fold_test_metrics,
                   fold_dev_metrics := fold_dev_metrics,
                   cv_metrics := none, interpolated := none },
                 [devLine, testLine, skipMsg rerankerRuns.length B.folds.length])
          else
            let all_preds := mergeAllPreds (rerankerRuns.map (fun p => p.2.test))
            let cv_metrics := bmEval all_preds B.qrels
            .ok ({ fold_test_metrics := fold_test_metrics,
                   fold_dev_metrics := fold_dev_metrics,
                   cv_metrics := some cv_metrics,
                   interpolated := some interpolatedEval },
                 [devLine, testLine, cvHeaderMsg cfgOptimize])

/-- C1 (counterexample): on a benchmark with one fold "s1" and no persisted
reranker predictions, `evaluate()` raises Python's builtin `ValueError`
(message "could not find predictions; run the train command first"), not an
exception of a `MissingPredictionsError` class as the claim states. -/
theorem evaluate_missing_fold_error_class :
    (@RerankTask.evaluate Nat (fun _ _ => 0) 0 (fun _ => "")
        ⟨[("s1", ⟨[], [], []⟩)], []⟩ "s1" "AP" [] =
      .error (.valueError "could not find predictions; run the train command first"))
    ∧ ∀ m, @RerankTask.evaluate Nat (fun _ _ => 0) 0 (fun _ => "")
        ⟨[("s1", ⟨[], [], []⟩)], []⟩ "s1" "AP" [] ≠
      .error (.missingPredictionsError m) := by
  constructor
  · rfl
  · intro m h
    simp [RerankTask.evaluate, alookup] at h

/-- C1 (amended): if the reloaded cross-validated reranker runs have no entry
for the configured fold, `evaluate()` raises `ValueError` with a message
instructing the caller to run training first, and returns no partial
metrics. -/
theorem evaluate_missing_fold_raises {M : Type} (bmEval : Run → Qrels → M)
    (interpolatedEval : M) (fmt : M → String) (B : Benchmark)
    (cfgFold cfgOptimize : String) (rerankerRuns : List (String × Preds))
    (h : alookup rerankerRuns cfgFold = none) :
    RerankTask.evaluate bmEval interpolatedEval fmt B cfgFold cfgOptimize rerankerRuns =
      .error (.valueError "could not find predictions; run the train command first") := by
  simp [RerankTask.evaluate, h]

theorem evaluate_missing_fold_raises_witness :
    alookup ([] : List (String × Preds)) "s1" = none
    ∧ @RerankTask.evaluate Nat (fun _ _ => 0) 0 (fun _ => "")
        ⟨[("s1", ⟨[], [], []⟩)], []⟩ "s1" "AP" [] =
      .error (.valueError "could not find predictions; run the train command first") :=
  ⟨rfl, evaluate_missing_fold_raises (fun _ _ => 0) 0 (fun _ => "")
    ⟨[("s1", ⟨[], [], []⟩)], []⟩ "s1" "AP" [] rfl⟩

/-- C2: when prediction runs exist for the configured fold but for strictly
fewer folds than the benchmark defines, `evaluate()` returns (does not raise)
the current fold's dev and test metrics with `cv_metrics = None` and no
interpolated metric, and its final log line is `skipMsg n total`, which
renders the reduced coverage as "n/total" folds. -/
theorem evaluate_partial_coverage {M : Type} (bmEval : Run → Qrels → M)
    (interpolatedEval : M) (fmt : M → String) (B : Benchmark)
    (cfgFold cfgOptimize : String) (rerankerRuns : List (String × Preds))
    (preds : Preds) (fs : FoldSpec)
    (hr : alookup rerankerRuns cfgFold = some preds)
    (hf : alookup B.folds cfgFold = some fs)
    (hlt : rerankerRuns.length < B.folds.length) :
    RerankTask.evaluate bmEval interpolatedEval fmt B cfgFold cfgOptimize rerankerRuns =
      .ok ({ fold_test_metrics := bmEval preds.test (predictQrels B.qrels fs.test),
             fold_dev_metrics := bmEval preds.dev (predictQrels B.qrels fs.dev),
             cv_metrics := none, interpolated := none },
           [devMsg cfgFold (fmt (bmEval preds.dev (predictQrels B.qrels fs.dev))),
            testMsg cfgFold (fmt (bmEval preds.test (predictQrels B.qrels fs.test))),
            skipMsg rerankerRuns.length B.folds.length]) := by
  have hne : rerankerRuns.length ≠ B.folds.length := Nat.ne_of_lt hlt
  simp [RerankTask.evaluate, hr, hf, hne]

theorem evaluate_partial_coverage_witness :
    alookup [("s1", (⟨[("q1", [("d1", (1 : Score))])],
        [("q3", [("d2", (2 : Score))])]⟩ : Preds))] "s1" =
      some (⟨[("q1", [("d1", (1 : Score))])], [("q3", [("d2", (2 : Score))])]⟩ : Preds)
    ∧ alookup (Benchmark.folds ⟨[("s1", ⟨["q0"], ["q1"], ["q3"]⟩),
          ("s2", ⟨["q1"], ["q3"], ["q0"]⟩)], [("q1", [("d1", 1)])]⟩) "s1" =
        some (⟨["q0"], ["q1"], ["q3"]⟩ : FoldSpec)
    ∧ (1 : Nat) < 2
    ∧ @RerankTask.evaluate Nat (fun r q => r.length + q.length) 7 (fun n => toString n)
        ⟨[("s1", ⟨["q0"], ["q1"], ["q3"]⟩), ("s2", ⟨["q1"], ["q3"], ["q0"]⟩)],
          [("q1", [("d1", 1)])]⟩ "s1" "AP"
        [("s1", ⟨[("q1", [("d1", (1 : Score))])], [("q3", [("d2", (2 : Score))])]⟩)] =
      .ok ({ fold_test_metrics := 2, fold_dev_metrics := 2,
             cv_metrics := none, interpolated := none },
           [devMsg "s1" "2", testMsg "s1" "2", skipMsg 1 2]) := by
  refine ⟨rfl, rfl, by omega, ?_⟩
  have h := @evaluate_partial_coverage Nat (fun r q => r.length + q.length) 7
    (fun n => toString n)
    ⟨[("s1", ⟨["q0"], ["q1"], ["q3"]⟩), ("s2", ⟨["q1"], ["q3"], ["q0"]⟩)],
      [("q1", [("d1", 1)])]⟩ "s1" "AP"
    [("s1", ⟨[("q1", [("d1", (1 : Score))])], [("q3", [("d2", (2 : Score))])]⟩)]
    ⟨[("q1", [("d1", (1 : Score))])], [("q3", [("d2", (2 : Score))])]⟩
    ⟨["q0"], ["q1"], ["q3"]⟩ rfl rfl (by decide)
  simpa using h

theorem alookup_eq_none {α : Type} (m : List (String × α)) (k : String) :
    alookup m k = none ↔ k ∉ m.map Prod.fst := by
  induction m with
  | nil => simp [alookup]
  | cons e rest ih =>
    by_cases h : e.1 = k
    · simp [alookup, h]
    · simp [alookup, h, ih, Ne.symm h]

theorem dictSet_not_mem {α : Type} (m : List (String × α)) (k : String) (v : α)
    (h : k ∉ m.map Prod.fst) : dictSet m k v = m ++ [(k, v)] := by
  induction m with
  | nil => rfl
  | cons e rest ih =>
    simp only [List.map_cons, List.mem_cons] at h
    push_neg at h
    simp [dictSet, Ne.symm h.1, ih h.2]

theorem foldl_dictSet_fresh {α : Type} (docs : List (String × α)) :
    ∀ acc : List (String × α), (docs.map Prod.fst).Nodup →
    (∀ d ∈ docs.map Prod.fst, d ∉ acc.map Prod.fst) →
    docs.foldl (fun a ds => dictSet a ds.1 ds.2) acc = acc ++ docs := by
  induction docs with
  | nil => intro acc _ _; simp
  | cons d ds ih =>
    intro acc hnd hfresh
    simp only [List.map_cons, List.nodup_cons] at hnd
    have hd : d.1 ∉ acc.map Prod.fst := hfresh d.1 (by simp)
    have step : dictSet acc d.1 d.2 = acc ++ [d] := dictSet_not_mem acc d.1 d.2 hd
    rw [List.foldl_cons, step, ih (acc ++ [d]) hnd.2]
    · simp
    · intro x hx
      simp only [List.map_append, List.mem_append, List.map_cons, List.map_nil,
        List.mem_singleton]
      push_neg
      refine ⟨fun hc => hfresh x (by simp [hx]) hc, ?_⟩
      intro hc
      exact hnd.1 (hc ▸ hx)

theorem runSetDoc_last (acc : Run) (q : Qid) (v : List (Docid × Score))
    (d : Docid) (s : Score) (h : q ∉ acc.map Prod.fst) :
    runSetDoc (acc ++ [(q, v)]) q d s = acc ++ [(q, dictSet v d s)] := by
  induction acc with
  | nil => simp [runSetDoc]
  | cons e rest ih =>
    simp only [List.map_cons, List.mem_cons] at h
    push_neg at h
    simp [runSetDoc, Ne.symm h.1, ih h.2]

theorem foldl_runSetDoc (docs : List (Docid × Score)) :
    ∀ (acc : Run) (q : Qid) (v : List (Docid × Score)), q ∉ acc.map Prod.fst →
    docs.foldl (fun a ds => runSetDoc a q ds.1 ds.2) (acc ++ [(q, v)]) =
      acc ++ [(q, docs.foldl (fun a ds => dictSet a ds.1 ds.2) v)] := by
  induction docs with
  | nil => intro acc q v _; simp
  | cons d ds ih =>
    intro acc q v hq
    rw [List.foldl_cons, runSetDoc_last acc q v d.1 d.2 hq, ih acc q _ hq,
      List.foldl_cons]

theorem mergePreds_append (testRun : Run) :
    ∀ acc : Run, (testRun.map Prod.fst).Nodup →
    (∀ e ∈ testRun, (e.2.map Prod.fst).Nodup) →
    (∀ q ∈ testRun.map Prod.fst, q ∉ acc.map Prod.fst) →
    mergePreds acc testRun = acc ++ testRun := by
  induction testRun with
  | nil => intro acc _ _ _; simp [mergePreds]
  | cons e rest ih =>
    intro acc hnd hdocs hdisj
    simp only [List.map_cons, List.nodup_cons] at hnd
    have he : e.1 ∉ acc.map Prod.fst := hdisj e.1 (by simp)
    have hsd : setdefaultQ acc e.1 = acc ++ [(e.1, [])] := by
      simp [setdefaultQ, (alookup_eq_none acc e.1).mpr he]
    have hinner :
        e.2.foldl (fun a ds => runSetDoc a e.1 ds.1 ds.2) (acc ++ [(e.1, [])]) =
          acc ++ [(e.1, e.2)] := by
      rw [foldl_runSetDoc e.2 acc e.1 [] he,
        foldl_dictSet_fresh e.2 [] (hdocs e (by simp)) (by simp)]
      simp
    have hstep :
        e.2.foldl (fun a ds => runSetDoc a e.1 ds.1 ds.2) (setdefaultQ acc e.1) =
          acc ++ [e] := by
      rw [hsd, hinner]
    have ih' := ih (acc ++ [e]) hnd.2 (fun x hx => hdocs x (List.mem_cons_of_mem e hx))
      (by
        intro q hq
        simp only [List.map_append, List.mem_append, List.map_cons, List.map_nil,
          List.mem_singleton]
        push_neg
        exact ⟨fun hc => hdisj q (by simp [hq]) hc, fun hc => hnd.1 (hc ▸ hq)⟩)
    calc mergePreds acc (e :: rest)
        = mergePreds (acc ++ [e]) rest := by
          simp only [mergePreds, List.foldl_cons, hstep]
      _ = (acc ++ [e]) ++ rest := ih'
      _ = acc ++ e :: rest := by simp

theorem foldl_mergePreds (testRuns : List Run) :
    ∀ acc : Run,
    (testRuns.flatMap (fun r => r.map Prod.fst)).Nodup →
    (∀ r ∈ testRuns, ∀ e ∈ r, (e.2.map Prod.fst).Nodup) →
    (∀ q ∈ testRuns.flatMap (fun r => r.map Prod.fst), q ∉ acc.map Prod.fst) →
    testRuns.foldl mergePreds acc = acc ++ testRuns.flatten := by
  induction testRuns with
  | nil => intro acc _ _ _; simp
  | cons r rs ih =>
    intro acc hnd hdocs hdisj
    rw [List.flatMap_cons, List.nodup_append] at hnd
    rw [List.foldl_cons,
      mergePreds_append r acc hnd.1 (hdocs r (by simp))
        (fun q hq => hdisj q (by simp [hq]))]
    rw [ih (acc ++ r) hnd.2.1 (fun x hx => hdocs x (List.mem_cons_of_mem r hx))
      (by
        intro q hq
        simp only [List.map_append, List.mem_append]
        push_neg
        refine ⟨fun hc => hdisj q (by simp [List.flatMap_cons, hq]) hc, ?_⟩
        intro hc
        exact hnd.2.2 hc hq)]
    simp [List.flatten_cons]

/-- `all_preds` equals the concatenation of the folds' test runs when the
query ids across those runs are globally distinct (the cross-validation
situation) and each run has distinct docids per query (always true of a
Python dict). -/
theorem mergeAllPreds_eq_flatten (testRuns : List Run)
    (hnd : (testRuns.flatMap (fun r => r.map Prod.fst)).Nodup)
    (hdocs : ∀ r ∈ testRuns, ∀ e ∈ r, (e.2.map Prod.fst).Nodup) :
    mergeAllPreds testRuns = testRuns.flatten :=
  foldl_mergePreds testRuns [] hnd hdocs (by simp)

/-- C5: with predictions present for all folds (and the cross-validation
invariants: query ids globally distinct across the folds' test runs, docids
distinct within each query, as Python dicts guarantee), `evaluate()` computes
the pooled cross-validated metric by applying the benchmark evaluator to the
single merged run `mergeAllPreds`, whose entries are exactly the
(query-id, docid, score) entries of every fold's test predictions and whose
query set is the union of the folds' test query sets. -/
theorem evaluate_full_coverage_pooled {M : Type} (bmEval : Run → Qrels → M)
    (interpolatedEval : M) (fmt : M → String) (B : Benchmark)
    (cfgFold cfgOptimize : String) (rerankerRuns : List (String × Preds))
    (preds : Preds) (fs : FoldSpec)
    (hr : alookup rerankerRuns cfgFold = some preds)
    (hf : alookup B.folds cfgFold = some fs)
    (hlen : rerankerRuns.length = B.folds.length)
    (hnd : ((rerankerRuns.map (fun p => p.2.test)).flatMap (fun r => r.map Prod.fst)).Nodup)
    (hdocs : ∀ p ∈ rerankerRuns, ∀ e ∈ p.2.test, (e.2.map Prod.fst).Nodup) :
    (∃ out logs,
        RerankTask.evaluate bmEval interpolatedEval fmt B cfgFold cfgOptimize rerankerRuns =
          .ok (out, logs)
        ∧ out.cv_metrics =
            some (bmEval (mergeAllPreds (rerankerRuns.map (fun p => p.2.test))) B.qrels))
    ∧ (∀ q d s,
        (∃ ds, (q, ds) ∈ mergeAllPreds (rerankerRuns.map (fun p => p.2.test)) ∧ (d, s) ∈ ds)
        ↔ ∃ p ∈ rerankerRuns, ∃ ds, (q, ds) ∈ p.2.test ∧ (d, s) ∈ ds)
    ∧ (∀ q, q ∈ (mergeAllPreds (rerankerRuns.map (fun p => p.2.test))).map Prod.fst
        ↔ ∃ p ∈ rerankerRuns, q ∈ p.2.test.map Prod.fst) := by
  have hdocs' : ∀ r ∈ rerankerRuns.map (fun p => p.2.test), ∀ e ∈ r,
      (e.2.map Prod.fst).Nodup := by
    intro r hrm e he
    rcases List.mem_map.mp hrm with ⟨p, hp, rfl⟩
    exact hdocs p hp e he
  have hmerge := mergeAllPreds_eq_flatten (rerankerRuns.map (fun p => p.2.test)) hnd hdocs'
  have heval :
      RerankTask.evaluate bmEval interpolatedEval fmt B cfgFold cfgOptimize rerankerRuns =
        .ok ({ fold_test_metrics := bmEval preds.test (predictQrels B.qrels fs.test),
               fold_dev_metrics := bmEval preds.dev (predictQrels B.qrels fs.dev),
               cv_metrics :=
                 some (bmEval (mergeAllPreds (rerankerRuns.map (fun p => p.2.test))) B.qrels),
               interpolated := some interpolatedEval },
             [devMsg cfgFold (fmt (bmEval preds.dev (predictQrels B.qrels fs.dev))),
              testMsg cfgFold (fmt (bmEval preds.test (predictQrels B.qrels fs.test))),
              cvHeaderMsg cfgOptimize]) := by
    simp [RerankTask.evaluate, hr, hf, hlen]
  refine ⟨?_, ?_, ?_⟩
  · exact ⟨_, _, heval, rfl⟩
  · intro q d s
    rw [hmerge]
    constructor
    · rintro ⟨ds, hmem, hds⟩
      rcases List.mem_flatten.mp hmem with ⟨r, hrm, hqr⟩
      rcases List.mem_map.mp hrm with ⟨p, hp, rfl⟩
      exact ⟨p, hp, ds, hqr, hds⟩
    · rintro ⟨p, hp, ds, hds1, hds2⟩
      exact ⟨ds, List.mem_flatten.mpr ⟨p.2.test, List.mem_map.mpr ⟨p, hp, rfl⟩, hds1⟩, hds2⟩
  · intro q
    rw [hmerge]
    constructor
    · intro hq
      rcases List.mem_map.mp hq with ⟨e, hem, rfl⟩
      rcases List.mem_flatten.mp hem with ⟨r, hrm, her⟩
      rcases List.mem_map.mp hrm with ⟨p, hp, rfl⟩
      exact ⟨p, hp, List.mem_map.mpr ⟨e, her, rfl⟩⟩
    · rintro ⟨p, hp, hq⟩
      rcases List.mem_map.mp hq with ⟨e, her, rfl⟩
      exact List.mem_map.mpr
        ⟨e, List.mem_flatten.mpr ⟨p.2.test, List.mem_map.mpr ⟨p, hp, rfl⟩, her⟩, rfl⟩

/-- Concrete two-fold inputs for exercising the full-coverage branch. -/
def wPredsA : Preds := ⟨[], [("q1", [("d1", (1 : Score))])]⟩

def wPredsB : Preds := ⟨[], [("q2", [("d2", (2 : Score))])]⟩

def wRuns5 : List (String × Preds) := [("s1", wPredsA), ("s2", wPredsB)]

def wB5 : Benchmark :=
  ⟨[("s1", ⟨[], ["q0"], ["q1"]⟩), ("s2", ⟨[], ["q1"], ["q2"]⟩)], [("q1", [("d1", 1)])]⟩

def wEval5 : Run → Qrels → Nat := fun r q => r.length + q.length

theorem evaluate_full_coverage_pooled_witness :
    alookup wRuns5 "s1" = some wPredsA
    ∧ alookup wB5.folds "s1" = some (⟨[], ["q0"], ["q1"]⟩ : FoldSpec)
    ∧ wRuns5.length = wB5.folds.length
    ∧ ((wRuns5.map (fun p => p.2.test)).flatMap (fun r => r.map Prod.fst)).Nodup
    ∧ (∀ p ∈ wRuns5, ∀ e ∈ p.2.test, (e.2.map Prod.fst).Nodup)
    ∧ ((∃ out logs,
          RerankTask.evaluate wEval5 7 (fun n => toString n) wB5 "s1" "AP" wRuns5 =
            .ok (out, logs)
          ∧ out.cv_metrics =
              some (wEval5 (mergeAllPreds (wRuns5.map (fun p => p.2.test))) wB5.qrels))
      ∧ (∀ q d s,
          (∃ ds, (q, ds) ∈ mergeAllPreds (wRuns5.map (fun p => p.2.test)) ∧ (d, s) ∈ ds)
          ↔ ∃ p ∈ wRuns5, ∃ ds, (q, ds) ∈ p.2.test ∧ (d, s) ∈ ds)
      ∧ (∀ q, q ∈ (mergeAllPreds (wRuns5.map (fun p => p.2.test))).map Prod.fst
          ↔ ∃ p ∈ wRuns5, q ∈ p.2.test.map Prod.fst)) :=
  ⟨rfl, rfl, rfl, by decide, by decide,
    evaluate_full_coverage_pooled wEval5 7 (fun n => toString n) wB5 "s1" "AP" wRuns5
      wPredsA ⟨[], ["q0"], ["q1"]⟩ rfl rfl rfl (by decide) (by decide)⟩

theorem alookup_map_self {α : Type} (f : Qid → α) (qids : List Qid) (q : Qid)
    (h : q ∈ qids) :
    alookup (qids.map (fun x => (x, f x))) q = some (f q) := by
  induction qids with
  | nil => cases h
  | cons x xs ih =>
    by_cases hx : x = q
    · subst hx
      simp [alookup]
    · have hmem : q ∈ xs := by
        rcases List.mem_cons.mp h with h1 | h2
        · exact absurd h1.symm hx
        · exact h2
      simp only [List.map_cons, alookup, hx, if_false]
      exact ih hmem

/-- C8: the qrels mapping that `evaluate()` passes to metric computation
(built by `predictQrels`, see `RerankTask.evaluate` and lines 195/200 of
rerank.py) has an entry for every query id of the fold's dev (resp. test)
predict set: the benchmark's judgments when the query is judged, the empty
mapping when it is absent from the benchmark qrels — so no dev/test query can
fail evaluation for lack of a qrels entry. -/
theorem evaluate_qrels_total (qrels : Qrels) (predictQids : List Qid) (q : Qid)
    (h : q ∈ predictQids) :
    alookup (predictQrels qrels predictQids) q = some ((alookup qrels q).getD [])
    ∧ (∀ g, alookup qrels q = some g → alookup (predictQrels qrels predictQids) q = some g)
    ∧ (alookup qrels q = none → alookup (predictQrels qrels predictQids) q = some []) := by
  have main : alookup (predictQrels qrels predictQids) q =
      some ((alookup qrels q).getD []) :=
    alookup_map_self (fun qid => (alookup qrels qid).getD []) predictQids q h
  refine ⟨main, ?_, ?_⟩
  · intro g hg
    rw [main, hg]
    rfl
  · intro hg
    rw [main, hg]
    rfl

/-- Concrete qrels used by the coverage witness. -/
def wQrels8 : Qrels := [("q1", [("d1", 1)])]

theorem evaluate_qrels_total_witness :
    "q2" ∈ (["q1", "q2"] : List Qid)
    ∧ (alookup (predictQrels wQrels8 ["q1", "q2"]) "q2" =
        some ((alookup wQrels8 "q2").getD [])
      ∧ (∀ g, alookup wQrels8 "q2" = some g →
          alookup (predictQrels wQrels8 ["q1", "q2"]) "q2" = some g)
      ∧ (alookup wQrels8 "q2" = none →
          alookup (predictQrels wQrels8 ["q1", "q2"]) "q2" = some [])) :=
  ⟨by decide, evaluate_qrels_total wQrels8 ["q1", "q2"] "q2" (by decide)⟩

/-! ## CodeSearchNetCorpus qrels lines (codesearchnet.py line 115) -/

/-- codesearchnet.py line 115: the qrels line written for each record,
`f"{qid} Q0 {docid} 1\n"` (the trailing newline is the line terminator). -/
def qrelLine (qid docid : String) : String :=
  qid ++ " Q0 " ++ docid ++ " 1\n"

/-- Split a list of characters into its space-delimited fields, accumulating
the current field in reverse. -/
def fieldsAux : List Char → List Char → List String
  | [], acc => [String.mk acc.reverse]
  | c :: cs, acc =>
      if c = ' ' then String.mk acc.reverse :: fieldsAux cs []
      else fieldsAux cs (c :: acc)

/-- The whitespace-delimited fields of a string (reading convention for
standard qrels lines). -/
def fields (s : String) : List String := fieldsAux s.toList []

theorem fieldsAux_append_space (l : List Char) :
    ∀ acc rest, (∀ c ∈ l, c ≠ ' ') →
    fieldsAux (l ++ ' ' :: rest) acc = String.mk (acc.reverse ++ l) :: fieldsAux rest [] := by
  induction l with
  | nil => intro acc rest _; simp [fieldsAux]
  | cons c cs ih =>
    intro acc rest h
    have hc : c ≠ ' ' := h c (by simp)
    have hstep : fieldsAux ((c :: cs) ++ ' ' :: rest) acc =
        fieldsAux (cs ++ ' ' :: rest) (c :: acc) := by
      simp [fieldsAux, hc]
    rw [hstep, ih (c :: acc) rest (fun x hx => h x (by simp [hx]))]
    simp

/-- C7 (counterexample): the qrels line written for qid "0" and docid "doc0"
has second whitespace-delimited field "Q0", not the literal "0" that the
claimed standard `<queryid> 0 <docid> <grade>` format requires. -/
theorem qrelLine_second_field_not_zero :
    (fields (qrelLine "0" "doc0")).get? 1 = some "Q0"
    ∧ (fields (qrelLine "0" "doc0")).get? 1 ≠ some "0" := by
  constructor
  · rfl
  · intro h
    rw [show (fields (qrelLine "0" "doc0")).get? 1 = some "Q0" from rfl] at h
    simp at h

/-- C7 (amended): every qrels line written by the CodeSearchNetCorpus
benchmark is of the form `<queryid> Q0 <docid> 1` — for space-free qid and
docid its whitespace-delimited fields are exactly `[qid, "Q0", docid, "1"]`
(the last carrying the line's terminating newline), so the second field is
the literal string "Q0". -/
theorem qrelLine_fields (qid docid : String)
    (hq : ∀ c ∈ qid.toList, c ≠ ' ') (hd : ∀ c ∈ docid.toList, c ≠ ' ') :
    fields (qrelLine qid docid) = [qid, "Q0", docid, "1\n"]
    ∧ (fields (qrelLine qid docid)).get? 1 = some "Q0" := by
  have hsplit : (qrelLine qid docid).toList =
      qid.toList ++ ' ' :: ('Q' :: '0' :: ' ' ::
        (docid.toList ++ ' ' :: ('1' :: '\n' :: []))) := by
    simp [qrelLine, String.toList]
  have hmain : fields (qrelLine qid docid) = [qid, "Q0", docid, "1\n"] := by
    rw [fields, hsplit, fieldsAux_append_space qid.toList [] _ hq]
    rw [show fieldsAux ('Q' :: '0' :: ' ' :: (docid.toList ++ ' ' :: ('1' :: '\n' :: []))) [] =
          "Q0" :: fieldsAux (docid.toList ++ ' ' :: ('1' :: '\n' :: [])) [] from rfl]
    rw [fieldsAux_append_space docid.toList [] _ hd,
      show fieldsAux ['1', '\n'] [] = ["1\n"] from rfl]
    simp [String.mk]
  exact ⟨hmain, by rw [hmain]; rfl⟩

theorem qrelLine_fields_witness :
    (∀ c ∈ ("17" : String).toList, c ≠ ' ')
    ∧ (∀ c ∈ ("doc42" : String).toList, c ≠ ' ')
    ∧ (fields (qrelLine "17" "doc42") = ["17", "Q0", "doc42", "1\n"]
      ∧ (fields (qrelLine "17" "doc42")).get? 1 = some "Q0") :=
  ⟨by decide, by decide, qrelLine_fields "17" "doc42" (by decide) (by decide)⟩

/-! ## Decimal numerals: `Nat.repr` is injective (needed because
CodeSearchNetCorpus assigns query ids with Python's `str(len(query_map))`) -/

/-- Structural decimal rendering of a natural number. -/
def decimalChars (n : Nat) : List Char :=
  if _h : n < 10 then [Nat.digitChar n]
  else decimalChars (n / 10) ++ [Nat.digitChar (n % 10)]
decreasing_by exact Nat.div_lt_self (by omega) (by omega)

theorem decimalChars_ne_nil (n : Nat) : decimalChars n ≠ [] := by
  rw [decimalChars]
  by_cases h : n < 10 <;> simp [h]

theorem toDigitsCore_eq_decimalChars (fuel : Nat) :
    ∀ n ds, 0 < fuel → n < 10 ^ fuel →
    Nat.toDigitsCore 10 fuel n ds = decimalChars n ++ ds := by
  induction fuel with
  | zero => intro n ds h _; omega
  | succ f ih =>
    intro n ds _ hlt
    by_cases h10 : n < 10
    · have hdiv : n / 10 = 0 := Nat.div_eq_of_lt h10
      have hmod : n % 10 = n := Nat.mod_eq_of_lt h10
      simp [Nat.toDigitsCore, hdiv, decimalChars, h10, hmod]
    · have hdiv : n / 10 ≠ 0 := by
        intro h
        exact h10 (by omega)
      have hf : 0 < f := by
        by_contra hf0
        have : f = 0 := by omega
        subst this
        simp at hlt
        omega
      have hlt' : n / 10 < 10 ^ f := by
        rw [Nat.div_lt_iff_lt_mul (by omega)]
        calc n < 10 ^ (f + 1) := hlt
          _ = 10 ^ f * 10 := by ring
      simp only [Nat.toDigitsCore, hdiv, if_false]
      rw [ih (n / 10) (Nat.digitChar (n % 10) :: ds) hf hlt']
      rw [show decimalChars n = decimalChars (n / 10) ++ [Nat.digitChar (n % 10)] from by
        rw [decimalChars]
        simp [h10]]
      simp

theorem repr_eq_decimalChars (n : Nat) : Nat.repr n = (decimalChars n).asString := by
  have hn : n < 10 ^ (n + 1) := by
    calc n < 2 ^ (n + 1) := by
          calc n < 2 ^ n := Nat.lt_two_pow n
            _ ≤ 2 ^ (n + 1) := Nat.pow_le_pow_right (by omega) (by omega)
      _ ≤ 10 ^ (n + 1) := Nat.pow_le_pow_left (by omega) _
  rw [Nat.repr, Nat.toDigits, toDigitsCore_eq_decimalChars (n + 1) n [] (by omega) hn]
  simp

theorem decimalChars_lt (n : Nat) (h : n < 10) :
    decimalChars n = [Nat.digitChar n] := by
  rw [decimalChars]
  simp [h]

theorem decimalChars_ge (n : Nat) (h : ¬ n < 10) :
    decimalChars n = decimalChars (n / 10) ++ [Nat.digitChar (n % 10)] := by
  rw [decimalChars]
  simp [h]

theorem digitChar_inj_lt : ∀ a < 10, ∀ b < 10,
    Nat.digitChar a = Nat.digitChar b → a = b := by decide

theorem decimalChars_inj (m : Nat) :
    ∀ n, decimalChars m = decimalChars n → m = n := by
  induction m using Nat.strong_induction_on with
  | _ m ih =>
    intro n heq
    by_cases hm : m < 10
    · by_cases hn : n < 10
      · rw [decimalChars_lt m hm, decimalChars_lt n hn] at heq
        simp only [List.cons.injEq, and_true] at heq
        exact digitChar_inj_lt m hm n hn heq
      · rw [decimalChars_lt m hm, decimalChars_ge n hn] at heq
        have hlen := congrArg List.length heq
        simp only [List.length_singleton, List.length_append, List.length_cons,
          List.length_nil] at hlen
        have h0 : (decimalChars (n / 10)).length = 0 := by omega
        exact absurd (List.length_eq_zero.mp h0) (decimalChars_ne_nil (n / 10))
    · by_cases hn : n < 10
      · rw [decimalChars_ge m hm, decimalChars_lt n hn] at heq
        have hlen := congrArg List.length heq
        simp only [List.length_singleton, List.length_append, List.length_cons,
          List.length_nil] at hlen
        have h0 : (decimalChars (m / 10)).length = 0 := by omega
        exact absurd (List.length_eq_zero.mp h0) (decimalChars_ne_nil (m / 10))
      · rw [decimalChars_ge m hm, decimalChars_ge n hn] at heq
        have hrev := congrArg List.reverse heq
        simp only [List.reverse_append, List.reverse_cons, List.reverse_nil,
          List.nil_append, List.singleton_append, List.cons.injEq] at hrev
        have hdigit : m % 10 = n % 10 :=
          digitChar_inj_lt (m % 10) (Nat.mod_lt m (by omega)) (n % 10)
            (Nat.mod_lt n (by omega)) hrev.1
        have htail : decimalChars (m / 10) = decimalChars (n / 10) := by
          have h2 := congrArg List.reverse hrev.2
          simpa using h2
        have hdivlt : m / 10 < m := Nat.div_lt_self (by omega) (by omega)
        have hdiv : m / 10 = n / 10 := ih (m / 10) hdivlt (n / 10) htail
        omega

/-- `Nat.repr` (Python's `str` on a non-negative int) is injective. -/
theorem natRepr_inj (m n : Nat) (h : Nat.repr m = Nat.repr n) : m = n := by
  rw [repr_eq_decimalChars, repr_eq_decimalChars] at h
  exact decimalChars_inj m n (List.asString_inj.mp h)

/-! ## CodeSearchNetCorpus fold construction
(codesearchnet.py lines 96-130) -/

/-- The fields of one CodeSearchNet record that the qid/fold logic reads. -/
structure CSNRecord where
  code_raw : String
  docstring_raw : String
deriving DecidableEq

/-- The three record sets processed, in iteration order of
`qids = {s: [] for s in ["train", "valid", "test"]}`. -/
inductive SplitName where
  | train
  | valid
  | test
deriving DecidableEq

/-- The mutable state of `download_if_missing`: `self._query_map`
(docstring_raw → qid, insertion-ordered) and the three `qids` lists. -/
structure CSNState where
  queryMap : List (String × String)
  train : List String
  valid : List String
  test : List String
deriving DecidableEq

/-- The `qids` list selected by a split name. -/
def splitList (st : CSNState) : SplitName → List String
  | .train => st.train
  | .valid => st.valid
  | .test => st.test

/-- Append a qid to the split's `qids` list (`qids[set_name].append(qid)`). -/
def addQid (st : CSNState) (s : SplitName) (qid : String) : CSNState :=
  match s with
  | .train => { st with train := st.train ++ [qid] }
  | .valid => { st with valid := st.valid ++ [qid] }
  | .test => { st with test := st.test ++ [qid] }

/-- codesearchnet.py lines 113-120, restricted to the query-map/fold state:
`qid = self._query_map.get(data["code_raw"], str(len(self._query_map)))`;
then, when `data["docstring_raw"] not in self._query_map`, the map gains
`docstring_raw ↦ qid` and `qid` is appended to the split's list.  (The qrels
and topic writes carry no fold state; the qrels line format is `qrelLine`.) -/
def csnStep (s : SplitName) (st : CSNState) (r : CSNRecord) : CSNState :=
  let qid := (alookup st.queryMap r.code_raw).getD (Nat.repr st.queryMap.length)
  match alookup st.queryMap r.docstring_raw with
  | some _ => st
  | none => addQid { st with queryMap := st.queryMap ++ [(r.docstring_raw, qid)] } s qid

/-- Process one record set (one iteration of `for set_name in qids`). -/
def csnProcess (s : SplitName) (st : CSNState) (recs : List CSNRecord) : CSNState :=
  recs.foldl (csnStep s) st

/-- The initial state of `download_if_missing`. -/
def csnInit : CSNState := ⟨[], [], [], []⟩

/-- `download_if_missing` over a corpus given as its train/valid/test record
lists: the fold file then holds `train_qids := state.train`,
`predict.dev := state.valid`, `predict.test := state.test`. -/
def csnBuild (train valid test : List CSNRecord) : CSNState :=
  csnProcess .test (csnProcess .valid (csnProcess .train csnInit train) valid) test

/-- C6 (counterexample): on the corpus whose train set holds the record
(code "c", docstring "X") and whose test set holds (code "X", docstring "Y")
— a record whose raw code text coincides with another record's raw docstring
text — the qid "0" is placed in both the train and the test split, so
`Fold.split(f, train) ∩ Fold.split(f, test) ≠ ∅`. -/
theorem csn_fold_overlap :
    "0" ∈ (csnBuild [⟨"c", "X"⟩] [] [⟨"X", "Y"⟩]).train
    ∧ "0" ∈ (csnBuild [⟨"c", "X"⟩] [] [⟨"X", "Y"⟩]).test := by
  constructor
  · show "0" ∈ ["0"]
    simp
  · show "0" ∈ ["0"]
    simp

theorem addQid_queryMap (st : CSNState) (s : SplitName) (q : String) :
    (addQid st s q).queryMap = st.queryMap := by
  cases s <;> rfl

theorem splitList_addQid_same (st : CSNState) (s : SplitName) (q : String) :
    splitList (addQid st s q) s = splitList st s ++ [q] := by
  cases s <;> rfl

theorem splitList_addQid_ne (st : CSNState) (s s2 : SplitName) (q : String)
    (h : s2 ≠ s) : splitList (addQid st s q) s2 = splitList st s2 := by
  cases s <;> cases s2 <;> first | rfl | exact absurd rfl h

theorem splitList_setQueryMap (st : CSNState) (s : SplitName)
    (M : List (String × String)) :
    splitList { st with queryMap := M } s = splitList st s := by
  cases s <;> rfl

/-- Behaviour of one `for set_name` phase of `download_if_missing` when no
record's raw code text occurs among the corpus docstrings `D`: the query map
keeps only docstring keys, its length grows monotonically, the processed
split gains only qids of the form `str(n)` for map lengths `n` reached during
the phase, and the other splits are untouched. -/
theorem csnProcess_spec (D : List String) (s : SplitName) (recs : List CSNRecord) :
    ∀ st : CSNState,
    (∀ p ∈ st.queryMap, p.1 ∈ D) →
    (∀ r ∈ recs, r.docstring_raw ∈ D) →
    (∀ r ∈ recs, r.code_raw ∉ D) →
    (∀ p ∈ (csnProcess s st recs).queryMap, p.1 ∈ D)
    ∧ st.queryMap.length ≤ (csnProcess s st recs).queryMap.length
    ∧ (∀ q ∈ splitList (csnProcess s st recs) s,
        q ∈ splitList st s ∨
          ∃ n, st.queryMap.length ≤ n ∧ n < (csnProcess s st recs).queryMap.length ∧
            q = Nat.repr n)
    ∧ (∀ s2, s2 ≠ s → splitList (csnProcess s st recs) s2 = splitList st s2) := by
  induction recs with
  | nil =>
    intro st h1 _ _
    exact ⟨h1, le_refl _, fun q hq => Or.inl hq, fun s2 _ => rfl⟩
  | cons r rs ih =>
    intro st hkeys hdoc hcode
    have hstep : csnProcess s st (r :: rs) = csnProcess s (csnStep s st r) rs := rfl
    have hdoc' : ∀ x ∈ rs, x.docstring_raw ∈ D :=
      fun x hx => hdoc x (List.mem_cons_of_mem r hx)
    have hcode' : ∀ x ∈ rs, x.code_raw ∉ D :=
      fun x hx => hcode x (List.mem_cons_of_mem r hx)
    cases hdr : alookup st.queryMap r.docstring_raw with
    | some v =>
      have hid : csnStep s st r = st := by
        simp [csnStep, hdr]
      rw [hstep, hid]
      exact ih st hkeys hdoc' hcode'
    | none =>
      have hcr : alookup st.queryMap r.code_raw = none := by
        rw [alookup_eq_none]
        intro hmem
        rcases List.mem_map.mp hmem with ⟨p, hp, hpf⟩
        exact hcode r (List.mem_cons_self r rs) (hpf ▸ hkeys p hp)
      have hstep' : csnStep s st r =
          addQid { st with queryMap :=
              st.queryMap ++ [(r.docstring_raw, Nat.repr st.queryMap.length)] }
            s (Nat.repr st.queryMap.length) := by
        simp [csnStep, hdr, hcr]
      set st' := addQid { st with queryMap :=
          st.queryMap ++ [(r.docstring_raw, Nat.repr st.queryMap.length)] }
        s (Nat.repr st.queryMap.length) with hst'
      have hqm : st'.queryMap =
          st.queryMap ++ [(r.docstring_raw, Nat.repr st.queryMap.length)] := by
        rw [hst', addQid_queryMap]
      have hlen' : st'.queryMap.length = st.queryMap.length + 1 := by
        rw [hqm]
        simp
      have hkeys' : ∀ p ∈ st'.queryMap, p.1 ∈ D := by
        intro p hp
        rw [hqm] at hp
        rcases List.mem_append.mp hp with h1 | h1
        · exact hkeys p h1
        · rcases List.mem_singleton.mp h1 with rfl
          exact hdoc r (List.mem_cons_self r rs)
      have A := ih st' hkeys' hdoc' hcode'
      rw [hstep, hstep']
      refine ⟨A.1, ?_, ?_, ?_⟩
      · calc st.queryMap.length ≤ st'.queryMap.length := by omega
          _ ≤ (csnProcess s st' rs).queryMap.length := A.2.1
      · intro q hq
        rcases A.2.2.1 q hq with h1 | ⟨n, hn1, hn2, hn3⟩
        · rw [hst', splitList_addQid_same, splitList_setQueryMap] at h1
          rcases List.mem_append.mp h1 with h2 | h2
          · exact Or.inl h2
          · rcases List.mem_singleton.mp h2 with rfl
            refine Or.inr ⟨st.queryMap.length, le_refl _, ?_, rfl⟩
            have := A.2.1
            omega
        · refine Or.inr ⟨n, ?_, hn2, hn3⟩
          omega
      · intro s2 hs2
        rw [A.2.2.2 s2 hs2, hst', splitList_addQid_ne _ _ _ _ hs2,
          splitList_setQueryMap]

/-- C6 (amended): for every input corpus in which no record's raw code text
coincides with any record's raw docstring text, the fold written by
CodeSearchNetCorpus has train query ids disjoint from test query ids
(`Fold.split(f, train) ∩ Fold.split(f, test) = ∅`).  (The unamended claim,
which also covered corpora with such coincidences, fails: see the
counterexample, where a test record's `code_raw` equal to a train record's
`docstring_raw` makes the train qid be reused for the test split.) -/
theorem csn_folds_disjoint (train valid test : List CSNRecord)
    (H : ∀ r ∈ train ++ valid ++ test, ∀ r2 ∈ train ++ valid ++ test,
      r.code_raw ≠ r2.docstring_raw) :
    ∀ q ∈ (csnBuild train valid test).train, q ∉ (csnBuild train valid test).test := by
  intro q hqtrain hqtest
  classical
  set D := (train ++ valid ++ test).map (fun r => r.docstring_raw) with hD
  have hcodeAll : ∀ r ∈ train ++ valid ++ test, r.code_raw ∉ D := by
    intro r hr hmem
    rcases List.mem_map.mp hmem with ⟨r2, hr2, hr2f⟩
    exact H r hr r2 hr2 hr2f.symm
  have hdocAll : ∀ r ∈ train ++ valid ++ test, r.docstring_raw ∈ D :=
    fun r hr => List.mem_map.mpr ⟨r, hr, rfl⟩
  have hmemT : ∀ r ∈ train, r ∈ train ++ valid ++ test := by
    intro r hr
    simp [hr]
  have hmemV : ∀ r ∈ valid, r ∈ train ++ valid ++ test := by
    intro r hr
    simp [hr]
  have hmemX : ∀ r ∈ test, r ∈ train ++ valid ++ test := by
    intro r hr
    simp [hr]
  have A1 := csnProcess_spec D .train train csnInit (by simp [csnInit])
    (fun r hr => hdocAll r (hmemT r hr)) (fun r hr => hcodeAll r (hmemT r hr))
  set st1 := csnProcess .train csnInit train with hst1
  have A2 := csnProcess_spec D .valid valid st1 A1.1
    (fun r hr => hdocAll r (hmemV r hr)) (fun r hr => hcodeAll r (hmemV r hr))
  set st2 := csnProcess .valid st1 valid with hst2
  have A3 := csnProcess_spec D .test test st2 A2.1
    (fun r hr => hdocAll r (hmemX r hr)) (fun r hr => hcodeAll r (hmemX r hr))
  set st3 := csnProcess .test st2 test with hst3
  have hbuild : csnBuild train valid test = st3 := rfl
  rw [hbuild] at hqtrain hqtest
  -- the train list is frozen after the train phase
  have htr3 : st3.train = st1.train := by
    have e1 : splitList st3 .train = splitList st2 .train :=
      A3.2.2.2 .train (by simp)
    have e2 : splitList st2 .train = splitList st1 .train :=
      A2.2.2.2 .train (by simp)
    simpa [splitList] using e1.trans e2
  -- every train qid is str(n) for some n below the map length after train
  have hq1 : q ∈ splitList st1 .train := by
    rw [htr3] at hqtrain
    simpa [splitList] using hqtrain
  rcases A1.2.2.1 q hq1 with h1 | ⟨n, _, hn2, hn3⟩
  · simp [csnInit, splitList] at h1
  -- the test list is empty until the test phase starts
  have hte2 : splitList st2 .test = [] := by
    have e1 : splitList st2 .test = splitList st1 .test :=
      A2.2.2.2 .test (by simp)
    have e2 : splitList st1 .test = splitList csnInit .test :=
      A1.2.2.2 .test (by simp)
    rw [e1, e2]
    rfl
  have hq2 : q ∈ splitList st3 .test := by
    simpa [splitList] using hqtest
  rcases A3.2.2.1 q hq2 with h2 | ⟨m, hm1, _, hm3⟩
  · rw [hte2] at h2
    simp at h2
  -- n < len(st1.queryMap) ≤ len(st2.queryMap) ≤ m, yet str(n) = str(m)
  have hmono : st1.queryMap.length ≤ st2.queryMap.length := A2.2.1
  have heq : n = m := natRepr_inj n m (hn3 ▸ hm3 ▸ rfl)
  omega

theorem csn_folds_disjoint_witness :
    (∀ r ∈ ([⟨"c1", "X"⟩] : List CSNRecord) ++ [] ++ [⟨"c2", "Y"⟩],
      ∀ r2 ∈ ([⟨"c1", "X"⟩] : List CSNRecord) ++ [] ++ [⟨"c2", "Y"⟩],
        r.code_raw ≠ r2.docstring_raw)
    ∧ (∀ q ∈ (csnBuild [⟨"c1", "X"⟩] [] [⟨"c2", "Y"⟩]).train,
        q ∉ (csnBuild [⟨"c1", "X"⟩] [] [⟨"c2", "Y"⟩]).test) :=
  ⟨by decide, csn_folds_disjoint [⟨"c1", "X"⟩] [] [⟨"c2", "Y"⟩] (by decide)⟩

/-! ## The BagOfWords extractor (bagofwords.py) -/

/-- `config()["datamode"]`: 'unigram' or 'trigram'. -/
inductive Datamode where
  | unigram
  | trigram
deriving DecidableEq

/-- The extractor state after `create`/`preprocess`: the token caches, the
vocabulary `stoi` (term → index; after `_build_vocab` its indices are
`0, …, len(stoi)-1` with `"<pad>" ↦ 0`), the idf table (a
`defaultdict(lambda: 0)`), and the config. -/
structure BowState where
  qid2toks : List (String × List String)
  docid2toks : List (String × List String)
  stoi : List (String × Nat)
  idf : List (String × Int)
  datamode : Datamode
  maxqlen : Nat
  maxdoclen : Nat

/-- `BagOfWords._tok2vec` (lines 35-37): `[self.stoi.get(tok, 0) for tok in
toks]`. -/
def tok2vec (st : BowState) (toks : List String) : List Nat :=
  toks.map (fun tok => (alookup st.stoi tok).getD 0)

/-- `BagOfWords.get_trigrams_for_toks` (lines 60-61):
`[("#%s#" % tok)[i : i + 3] for tok in toks_list for i in range(len(tok))]`. -/
def getTrigramsForToks (toks_list : List String) : List String :=
  toks_list.flatMap (fun tok =>
    (List.range tok.length).map (fun i =>
      ((("#" ++ tok ++ "#").toList.drop i).take 3).asString))

/-- Numpy element assignment `v[i] = x`; out-of-range indices raise. -/
def npSet {α : Type} (v : List α) (i : Nat) (x : α) : Except PyErr (List α) :=
  if i < v.length then .ok (v.set i x) else .error .indexError

/-- A sequence of numpy element assignments. -/
def npSetAll {α : Type} (v : List α) : List (Nat × α) → Except PyErr (List α)
  | [] => .ok v
  | p :: rest =>
      match npSet v p.1 p.2 with
      | .error e => .error e
      | .ok v2 => npSetAll v2 rest

/-- Numpy in-place increment `v[i] += 1`. -/
def npInc (v : List Nat) (i : Nat) : Except PyErr (List Nat) :=
  if h : i < v.length then .ok (v.set i (v.get ⟨i, h⟩ + 1)) else .error .indexError

/-- The unigram loop of `transform_txt`: `for term in term_vec:
bog_txt[term] += 1`. -/
def npIncAll (v : List Nat) : List Nat → Except PyErr (List Nat)
  | [] => .ok v
  | i :: rest =>
      match npInc v i with
      | .error e => .error e
      | .ok v2 => npIncAll v2 rest

/-- The distinct elements of a list in first-occurrence order (iteration
order of `Counter(toks).items()`). -/
def firstOccs (l : List Nat) : List Nat :=
  l.foldl (fun acc x => if x ∈ acc then acc else acc ++ [x]) []

/-- `BagOfWords.transform_txt` (lines 152-169).  `_maxlen` is the `maxlen`
parameter of the Python signature, which the body never reads. -/
def transform_txt (st : BowState) (term_list : List String) (_maxlen : Nat) :
    Except PyErr (List Nat) :=
  let term_vec := tok2vec st term_list
  let bog_txt := List.replicate st.stoi.length 0
  match st.datamode with
  | .unigram => npIncAll bog_txt term_vec
  | .trigram =>
      let trigrams := getTrigramsForToks term_list
      let toks := trigrams.map (fun tri => (alookup st.stoi tri).getD 0)
      npSetAll bog_txt ((firstOccs toks).map (fun t => (t, toks.count t)))

/-- The dictionary returned by `id2vec` (lines 135-148): `negdocid`/`negdoc`
are present only when a negative document id was passed. -/
structure Transformed where
  qid : Option String
  posdocid : String
  query : List Nat
  posdoc : List Nat
  query_idf : List Int
  negdocid : Option String
  negdoc : Option (List Nat)

/-- Lines 116-123 of `id2vec`: resolve the query tokens.  `tokenize` is the
external tokenizer.  A call with both a qid and a query raises RuntimeError;
a call with neither (or with an unpreprocessed qid) hits `self.qid2toks[qid]`
on a missing key and raises KeyError. -/
def queryToks (st : BowState) (tokenize : String → List String)
    (qid query : Option String) : Except PyErr (List String) :=
  match query, qid with
  | some _, some _ =>
      .error (.runtimeError "received both a qid and query, but only one can be passed")
  | some qtext, none => .ok (tokenize qtext)
  | none, some q =>
      match alookup st.qid2toks q with
      | some t => .ok t
      | none => .error .keyError
  | none, none => .error .keyError

/-- Lines 131-133 of `id2vec`: `query_idf_vector = np.zeros(len(stoi))`,
then `query_idf_vector[stoi.get(tok, 0)] = idf[tok]` for each query token
(`idf` is a `defaultdict(lambda: 0)`). -/
def buildIdfVec (st : BowState) (query_toks : List String) : Except PyErr (List Int) :=
  npSetAll (List.replicate st.stoi.length (0 : Int))
    (query_toks.map (fun tok =>
      ((alookup st.stoi tok).getD 0, (alookup st.idf tok).getD 0)))

/-- `BagOfWords.id2vec` (lines 114-150).  `posdoc_toks`/`negdoc_toks` are
`docid2toks.get(id)`; `if not toks` is true both for a missing id (`None`)
and for an empty token list, modelled by `(… ).getD []` being empty. -/
def id2vec (st : BowState) (tokenize : String → List String) (posdoc_id : String)
    (negdoc_id : Option String) (qid : Option String) (query : Option String) :
    Except PyErr (Option Transformed) :=
  match queryToks st tokenize qid query with
  | .error e => .error e
  | .ok query_toks =>
    let posdoc_toks := (alookup st.docid2toks posdoc_id).getD []
    if posdoc_toks.isEmpty then .ok none
    else
      match transform_txt st query_toks st.maxqlen with
      | .error e => .error e
      | .ok transformed_query =>
        match buildIdfVec st query_toks with
        | .error e => .error e
        | .ok query_idf =>
          match transform_txt st posdoc_toks st.maxdoclen with
          | .error e => .error e
          | .ok posvec =>
            match negdoc_id with
            | none =>
                .ok (some ⟨qid, posdoc_id, transformed_query, posvec, query_idf,
                  none, none⟩)
            | some nid =>
                let negdoc_toks := (alookup st.docid2toks nid).getD []
                if negdoc_toks.isEmpty then .ok none
                else
                  match transform_txt st negdoc_toks st.maxdoclen with
                  | .error e => .error e
                  | .ok negvec =>
                      .ok (some ⟨qid, posdoc_id, transformed_query, posvec, query_idf,
                        some nid, some negvec⟩)

theorem alookup_eq_some_mem {α : Type} (m : List (String × α)) (k : String) (v : α)
    (h : alookup m k = some v) : (k, v) ∈ m := by
  induction m with
  | nil => simp [alookup] at h
  | cons e rest ih =>
    by_cases hk : e.1 = k
    · rw [alookup, if_pos hk] at h
      subst hk
      have hv : v = e.2 := (Option.some_inj.mp h).symm
      subst hv
      exact List.mem_cons_self e rest
    · rw [alookup, if_neg hk] at h
      exact List.mem_cons_of_mem e (ih h)

/-- After `_build_vocab`, every `stoi.get(tok, 0)` index is inside the
vocabulary-sized vector: looked-up indices by the vocabulary invariant, the
pad default 0 because the vocabulary is nonempty (it contains `"<pad>"`). -/
theorem stoi_getD_lt (st : BowState)
    (hstoi : ∀ p ∈ st.stoi, p.2 < st.stoi.length) (hn : 0 < st.stoi.length)
    (tok : String) : (alookup st.stoi tok).getD 0 < st.stoi.length := by
  cases h : alookup st.stoi tok with
  | none => simpa using hn
  | some v =>
    have := hstoi (tok, v) (alookup_eq_some_mem st.stoi tok v h)
    simpa using this

theorem sum_set_succ (v : List Nat) : ∀ i (h : i < v.length),
    (v.set i (v.get ⟨i, h⟩ + 1)).sum = v.sum + 1 := by
  induction v with
  | nil => intro i h; simp at h
  | cons x xs ih =>
    intro i h
    cases i with
    | zero => simp [List.set, List.sum_cons]; omega
    | succ j =>
      have hj : j < xs.length := by simpa using h
      simp only [List.set, List.sum_cons, List.get]
      rw [ih j hj]
      omega

theorem npIncAll_ok (idxs : List Nat) :
    ∀ v : List Nat, (∀ i ∈ idxs, i < v.length) →
    ∃ w, npIncAll v idxs = .ok w ∧ w.length = v.length ∧ w.sum = v.sum + idxs.length := by
  induction idxs with
  | nil => intro v _; exact ⟨v, rfl, rfl, by simp⟩
  | cons i rest ih =>
    intro v hb
    have hi : i < v.length := hb i (by simp)
    have hstep : npInc v i = .ok (v.set i (v.get ⟨i, hi⟩ + 1)) := by
      simp [npInc, hi]
    have hb' : ∀ j ∈ rest, j < (v.set i (v.get ⟨i, hi⟩ + 1)).length := by
      intro j hj
      simpa using hb j (by simp [hj])
    rcases ih (v.set i (v.get ⟨i, hi⟩ + 1)) hb' with ⟨w, hw1, hw2, hw3⟩
    refine ⟨w, ?_, ?_, ?_⟩
    · simp only [npIncAll, hstep]
      exact hw1
    · simpa using hw2
    · rw [hw3, sum_set_succ v i hi]
      simp
      omega

theorem npSetAll_ok {α : Type} (pairs : List (Nat × α)) :
    ∀ v : List α, (∀ p ∈ pairs, p.1 < v.length) →
    ∃ w, npSetAll v pairs = .ok w ∧ w.length = v.length := by
  induction pairs with
  | nil => intro v _; exact ⟨v, rfl, rfl⟩
  | cons p rest ih =>
    intro v hb
    have hp : p.1 < v.length := hb p (by simp)
    have hstep : npSet v p.1 p.2 = .ok (v.set p.1 p.2) := by
      simp [npSet, hp]
    have hb' : ∀ q ∈ rest, q.1 < (v.set p.1 p.2).length := by
      intro q hq
      simpa using hb q (by simp [hq])
    rcases ih (v.set p.1 p.2) hb' with ⟨w, hw1, hw2⟩
    refine ⟨w, ?_, ?_⟩
    · simp [npSetAll, hstep, hw1]
    · simpa using hw2

theorem mem_firstOccs (l : List Nat) (x : Nat) (h : x ∈ firstOccs l) : x ∈ l := by
  suffices hgen : ∀ acc, x ∈ l.foldl
      (fun acc x => if x ∈ acc then acc else acc ++ [x]) acc → x ∈ acc ∨ x ∈ l by
    rcases hgen [] h with h1 | h1
    · simp at h1
    · exact h1
  clear h
  induction l with
  | nil => intro acc h; exact Or.inl h
  | cons y ys ih =>
    intro acc h
    rw [List.foldl_cons] at h
    rcases ih _ h with h1 | h1
    · by_cases hy : y ∈ acc
      · rw [if_pos hy] at h1
        exact Or.inl h1
      · rw [if_neg hy] at h1
        rcases List.mem_append.mp h1 with h2 | h2
        · exact Or.inl h2
        · rcases List.mem_singleton.mp h2 with rfl
          exact Or.inr (by simp)
    · exact Or.inr (List.mem_cons_of_mem y h1)

/-- `transform_txt` never raises when the vocabulary invariant holds (all
`stoi` indices below `len(stoi)`, vocabulary nonempty): every index written
is produced by `stoi.get(·, 0)`.  The result has length `len(stoi)`. -/
theorem transform_txt_ok (st : BowState) (terms : List String) (maxlen : Nat)
    (hstoi : ∀ p ∈ st.stoi, p.2 < st.stoi.length) (hn : 0 < st.stoi.length) :
    ∃ v, transform_txt st terms maxlen = .ok v ∧ v.length = st.stoi.length := by
  cases hmode : st.datamode with
  | unigram =>
    have hb : ∀ i ∈ tok2vec st terms, i < (List.replicate st.stoi.length 0).length := by
      intro i hi
      rcases List.mem_map.mp hi with ⟨tok, _, rfl⟩
      simpa using stoi_getD_lt st hstoi hn tok
    rcases npIncAll_ok (tok2vec st terms) (List.replicate st.stoi.length 0) hb with
      ⟨w, hw1, hw2, _⟩
    refine ⟨w, ?_, by simpa using hw2⟩
    simp [transform_txt, hmode, hw1]
  | trigram =>
    have hb : ∀ p ∈ ((firstOccs ((getTrigramsForToks terms).map
          (fun tri => (alookup st.stoi tri).getD 0))).map
            (fun t => (t, ((getTrigramsForToks terms).map
              (fun tri => (alookup st.stoi tri).getD 0)).count t))),
        p.1 < (List.replicate st.stoi.length (0 : Nat)).length := by
      intro p hp
      rcases List.mem_map.mp hp with ⟨t, ht, rfl⟩
      have ht2 := mem_firstOccs _ t ht
      rcases List.mem_map.mp ht2 with ⟨tri, _, rfl⟩
      simpa using stoi_getD_lt st hstoi hn tri
    rcases npSetAll_ok _ (List.replicate st.stoi.length 0) hb with ⟨w, hw1, hw2⟩
    refine ⟨w, ?_, by simpa using hw2⟩
    simp [transform_txt, hmode, hw1]

theorem buildIdfVec_ok (st : BowState) (query_toks : List String)
    (hstoi : ∀ p ∈ st.stoi, p.2 < st.stoi.length) (hn : 0 < st.stoi.length) :
    ∃ u, buildIdfVec st query_toks = .ok u := by
  have hb : ∀ p ∈ query_toks.map (fun tok =>
      ((alookup st.stoi tok).getD 0, (alookup st.idf tok).getD 0)),
      p.1 < (List.replicate st.stoi.length (0 : Int)).length := by
    intro p hp
    rcases List.mem_map.mp hp with ⟨tok, _, rfl⟩
    simpa using stoi_getD_lt st hstoi hn tok
  rcases npSetAll_ok _ (List.replicate st.stoi.length (0 : Int)) hb with ⟨u, hu, _⟩
  exact ⟨u, hu⟩

/-- C10: in unigram datamode `transform_txt(term_list, maxlen)` returns a
vector of length `len(stoi)` whose components sum to `len(term_list)` —
every term, out-of-vocabulary terms (mapped to the pad index 0) included,
increments exactly one component — and the `maxlen` argument does not affect
the result.  Holds under the post-`_build_vocab` vocabulary invariant: all
`stoi` indices below `len(stoi)` and a nonempty vocabulary (it contains
`"<pad>" ↦ 0`). -/
theorem transform_txt_unigram_sum (st : BowState) (term_list : List String)
    (maxlen : Nat) (hmode : st.datamode = .unigram)
    (hstoi : ∀ p ∈ st.stoi, p.2 < st.stoi.length) (hn : 0 < st.stoi.length) :
    ∃ v, transform_txt st term_list maxlen = .ok v
      ∧ v.length = st.stoi.length
      ∧ v.sum = term_list.length
      ∧ ∀ maxlen2, transform_txt st term_list maxlen2 =
          transform_txt st term_list maxlen := by
  have hb : ∀ i ∈ tok2vec st term_list,
      i < (List.replicate st.stoi.length 0).length := by
    intro i hi
    rcases List.mem_map.mp hi with ⟨tok, _, rfl⟩
    simpa using stoi_getD_lt st hstoi hn tok
  rcases npIncAll_ok (tok2vec st term_list) (List.replicate st.stoi.length 0) hb with
    ⟨w, hw1, hw2, hw3⟩
  refine ⟨w, ?_, by simpa using hw2, ?_, fun _ => rfl⟩
  · simp [transform_txt, hmode, hw1]
  · rw [hw3]
    simp [tok2vec]

/-- Concrete extractor state for the BagOfWords witnesses. -/
def wBow : BowState :=
  ⟨[("q1", ["a"])], [("d1", ["a"]), ("d2", ["b"])],
    [("<pad>", 0), ("a", 1)], [("a", 3)], .unigram, 4, 800⟩

theorem transform_txt_unigram_sum_witness :
    wBow.datamode = .unigram
    ∧ (∀ p ∈ wBow.stoi, p.2 < wBow.stoi.length)
    ∧ 0 < wBow.stoi.length
    ∧ ∃ v, transform_txt wBow ["a", "b", "a"] 4 = .ok v
        ∧ v.length = wBow.stoi.length
        ∧ v.sum = (["a", "b", "a"] : List String).length
        ∧ ∀ maxlen2, transform_txt wBow ["a", "b", "a"] maxlen2 =
            transform_txt wBow ["a", "b", "a"] 4 :=
  ⟨rfl, by decide, by decide,
    transform_txt_unigram_sum wBow ["a", "b", "a"] 4 rfl (by decide) (by decide)⟩

/-- C9: for a well-formed call of `id2vec` (exactly one of qid/query given —
here expressed by the query-token resolution succeeding — and the vocabulary
invariant holding): if the positive document id has no tokens recorded in
`docid2toks`, it returns `None` rather than raising; likewise when a
negative document id is given and has no tokens; and when both documents
have tokens it returns the dictionary with keys qid, posdocid, query,
posdoc, query_idf, plus negdocid and negdoc exactly when a negative id was
given. -/
theorem id2vec_behaviour (st : BowState) (tokenize : String → List String)
    (posdoc_id : String) (negdoc_id : Option String) (qid query : Option String)
    (query_toks : List String)
    (hq : queryToks st tokenize qid query = .ok query_toks)
    (hstoi : ∀ p ∈ st.stoi, p.2 < st.stoi.length) (hn : 0 < st.stoi.length) :
    ((alookup st.docid2toks posdoc_id).getD [] = [] →
      id2vec st tokenize posdoc_id negdoc_id qid query = .ok none)
    ∧ (∀ nid, negdoc_id = some nid →
        (alookup st.docid2toks posdoc_id).getD [] ≠ [] →
        (alookup st.docid2toks nid).getD [] = [] →
        id2vec st tokenize posdoc_id negdoc_id qid query = .ok none)
    ∧ ((alookup st.docid2toks posdoc_id).getD [] ≠ [] →
        (∀ nid, negdoc_id = some nid → (alookup st.docid2toks nid).getD [] ≠ []) →
        ∃ t, id2vec st tokenize posdoc_id negdoc_id qid query = .ok (some t)
          ∧ t.qid = qid
          ∧ t.posdocid = posdoc_id
          ∧ t.negdocid = negdoc_id
          ∧ (negdoc_id = none → t.negdoc = none)
          ∧ (∀ nid, negdoc_id = some nid → ∃ nv, t.negdoc = some nv)) := by
  obtain ⟨qv, hqv, _⟩ := transform_txt_ok st query_toks st.maxqlen hstoi hn
  obtain ⟨iv, hiv⟩ := buildIdfVec_ok st query_toks hstoi hn
  refine ⟨?_, ?_, ?_⟩
  · intro hpos
    simp [id2vec, hq, List.isEmpty_iff, hpos]
  · intro nid hnid hpos hneg
    obtain ⟨pv, hpv, _⟩ :=
      transform_txt_ok st ((alookup st.docid2toks posdoc_id).getD []) st.maxdoclen hstoi hn
    simp [id2vec, hq, List.isEmpty_iff, hpos, hnid, hneg, hqv, hiv, hpv]
  · intro hpos hneg
    obtain ⟨pv, hpv, _⟩ :=
      transform_txt_ok st ((alookup st.docid2toks posdoc_id).getD []) st.maxdoclen hstoi hn
    cases hcase : negdoc_id with
    | none =>
      refine ⟨⟨qid, posdoc_id, qv, pv, iv, none, none⟩, ?_, rfl, rfl, rfl,
        fun _ => rfl, fun nid h => by simp at h⟩
      simp [id2vec, hq, List.isEmpty_iff, hpos, hqv, hiv, hpv]
    | some nid =>
      have hneg' : (alookup st.docid2toks nid).getD [] ≠ [] := hneg nid hcase
      obtain ⟨nv, hnv, _⟩ :=
        transform_txt_ok st ((alookup st.docid2toks nid).getD []) st.maxdoclen hstoi hn
      refine ⟨⟨qid, posdoc_id, qv, pv, iv, some nid, some nv⟩, ?_, rfl, rfl, rfl,
        fun h => by simp at h, fun nid2 h => ⟨nv, by simp⟩⟩
      simp [id2vec, hq, List.isEmpty_iff, hpos, hqv, hiv, hpv, hneg', hnv]

theorem id2vec_behaviour_witness :
    queryToks wBow (fun _ => []) (some "q1") none = .ok ["a"]
    ∧ (∀ p ∈ wBow.stoi, p.2 < wBow.stoi.length)
    ∧ 0 < wBow.stoi.length
    ∧ (((alookup wBow.docid2toks "dX").getD [] = [] →
        id2vec wBow (fun _ => []) "dX" (some "d2") (some "q1") none = .ok none)
      ∧ (∀ nid, (some "d2" : Option String) = some nid →
          (alookup wBow.docid2toks "dX").getD [] ≠ [] →
          (alookup wBow.docid2toks nid).getD [] = [] →
          id2vec wBow (fun _ => []) "dX" (some "d2") (some "q1") none = .ok none)
      ∧ ((alookup wBow.docid2toks "dX").getD [] ≠ [] →
          (∀ nid, (some "d2" : Option String) = some nid →
            (alookup wBow.docid2toks nid).getD [] ≠ []) →
          ∃ t, id2vec wBow (fun _ => []) "dX" (some "d2") (some "q1") none =
              .ok (some t)
            ∧ t.qid = some "q1"
            ∧ t.posdocid = "dX"
            ∧ t.negdocid = some "d2"
            ∧ ((some "d2" : Option String) = none → t.negdoc = none)
            ∧ (∀ nid, (some "d2" : Option String) = some nid →
                ∃ nv, t.negdoc = some nv))) :=
  ⟨rfl, by decide, by decide,
    id2vec_behaviour wBow (fun _ => []) "dX" (some "d2") (some "q1") none ["a"]
      rfl (by decide) (by decide)⟩

end Capreolus
